import Mathlib

/-!
Verification of the codvn package (SAP CODVN H password hashing).

The Go source is embedded shallowly:
* bytes are `Nat` (all byte values produced by the code are `< 256`);
* Go strings handled by the scanner are `List Char` (all inputs of interest
  are ASCII; the `unicode.IsSpace` / `unicode.IsPunct` classifiers are
  modelled on the ASCII range, which covers every character the record
  syntax can contain);
* the four digest primitives (`crypto/sha1`, `crypto/sha256`,
  `crypto/sha512`) come from the Go standard library, not from this
  repository, so they are abstracted as a `Digests` record of functions
  `List Nat → List Nat`; their fixed output sizes 20/32/48/64 are the
  documented `Size()` constants of those packages;
* fallible operations return `Except Err` mirroring the `error` results.
-/

namespace Codvn

/-- A `hash.Hash` as used by the package: its digest `Size()` and the pure
byte function `Sum(nil)` computes after `Reset(); Write(data)`. -/
structure HashFn where
  size : Nat
  sum : List Nat → List Nat

/-- The four standard-library digest functions the package wires in
`newHash`: `sha1.New`, `sha256.New`, `sha512.New384`, `sha512.New`. -/
structure Digests where
  sha1 : List Nat → List Nat
  sha256 : List Nat → List Nat
  sha384 : List Nat → List Nat
  sha512 : List Nat → List Nat

/-- The standard-library guarantee that each digest function returns
exactly its documented digest size (20/32/48/64 bytes). -/
def Digests.LenOk (d : Digests) : Prop :=
  (∀ xs, (d.sha1 xs).length = 20) ∧ (∀ xs, (d.sha256 xs).length = 32) ∧
  (∀ xs, (d.sha384 xs).length = 48) ∧ (∀ xs, (d.sha512 xs).length = 64)

/-- Go: `SHA1 Kind = "sha"`. -/
def SHA1 : List Char := ['s', 'h', 'a']

/-- Go: `SHA256 Kind = "SHA256"`. -/
def SHA256 : List Char := ['S', 'H', 'A', '2', '5', '6']

/-- Go: `SHA384 Kind = "SHA384"`. -/
def SHA384 : List Char := ['S', 'H', 'A', '3', '8', '4']

/-- Go: `SHA512 Kind = "SHA512"`. -/
def SHA512 : List Char := ['S', 'H', 'A', '5', '1', '2']

/-- Go: `func newHash(kind Kind) (hash.Hash, error)` — the closed switch
over the four supported kinds; any other kind yields `ErrUnknownHash`. -/
def newHash (d : Digests) (k : List Char) : Option HashFn :=
  if k = SHA1 then some ⟨20, d.sha1⟩
  else if k = SHA256 then some ⟨32, d.sha256⟩
  else if k = SHA384 then some ⟨48, d.sha384⟩
  else if k = SHA512 then some ⟨64, d.sha512⟩
  else none

/-- Go: `type CodvN struct { Kind Kind; Iter int; Hash []byte; Salt []byte }`. -/
structure CodvN where
  kind : List Char
  iter : Int
  hash : List Nat
  salt : List Nat
deriving DecidableEq, Repr

/-- The error values of the package (`ErrUnknownHash`, `ErrZeroIterations`,
`ErrTruncatedInput`, `ErrDontMatch`) together with the two classes of
errors it passes through verbatim: `fmt` scan failures other than
`io.ErrUnexpectedEOF`, and `base64` corrupt-input failures. -/
inductive Err where
  | unknownHash
  | zeroIterations
  | truncatedInput
  | dontMatch
  | scanFailure
  | base64Failure
deriving DecidableEq, Repr

/-- Outcome of the `fmt.Sscanf` phase: `io.ErrUnexpectedEOF` (the input
ended while the format still demanded data) versus every other scan
error (format mismatch, unexpected newline, bad integer, out of range). -/
inductive ScanErr where
  | unexpectedEOF
  | mismatch
deriving DecidableEq, Repr

/-- `unicode.IsSpace` restricted to the ASCII range. -/
def goIsSpace (c : Char) : Bool :=
  c == ' ' || c == '\t' || c == '\n' || c == '\x0b' || c == '\x0c' || c == '\r'

/-- `unicode.IsPunct` restricted to the ASCII range (the ASCII characters
of Unicode category P). -/
def goIsPunct (c : Char) : Bool :=
  c == '!' || c == '"' || c == '#' || c == '%' || c == '&' || c == '\'' ||
  c == '(' || c == ')' || c == '*' || c == ',' || c == '-' || c == '.' ||
  c == '/' || c == ':' || c == ';' || c == '?' || c == '@' || c == '[' ||
  c == '\\' || c == ']' || c == '_' || c == '{' || c == '}'

/-- `ss.SkipSpace` as configured by `Sscanf` (`nlIsSpace = false`): spaces
are consumed, a newline is an error, end of input is not an error. -/
def skipSpace : List Char → Except ScanErr (List Char)
  | [] => .ok []
  | c :: r =>
    if c = '\n' then .error .mismatch
    else if goIsSpace c then skipSpace r
    else .ok (c :: r)

/-- Matching one literal format character in `ss.advance`: end of input is
`io.ErrUnexpectedEOF`, a differing character is a format mismatch. -/
def scanLit (c : Char) : List Char → Except ScanErr (List Char)
  | [] => .error .unexpectedEOF
  | x :: r => if x = c then .ok r else .error .mismatch

/-- The token predicate of `Kind.Scan`:
`!unicode.IsSpace(c) && !unicode.IsPunct(c)`. -/
def kindChar (c : Char) : Bool :=
  !goIsSpace c && !goIsPunct c

/-- Go: `Kind.Scan` — `state.Token(true, ...)`: skip spaces, then take the
longest run of non-space non-punctuation characters (possibly empty). -/
def scanKind (s : List Char) : Except ScanErr (List Char × List Char) :=
  match skipSpace s with
  | .error e => .error e
  | .ok s1 => .ok (s1.takeWhile kindChar, s1.dropWhile kindChar)

/-- Decimal value of a digit string, as `strconv.ParseInt` computes it. -/
def charsToNat (ds : List Char) : Nat :=
  ds.foldl (fun a c => 10 * a + (c.toNat - 48)) 0

/-- The `%d` verb into an `int`: skip spaces, require input, accept one
optional sign, require at least one decimal digit, take the longest digit
run, and reject values outside the 64-bit signed range. -/
def scanIntTok (s : List Char) : Except ScanErr (Int × List Char) :=
  match skipSpace s with
  | .error e => .error e
  | .ok [] => .error .unexpectedEOF
  | .ok (c :: r) =>
    let s2 := if c = '-' ∨ c = '+' then r else c :: r
    match s2 with
    | [] => .error .unexpectedEOF
    | c2 :: r2 =>
      if c2.isDigit = false then .error .mismatch
      else
        let v := charsToNat ((c2 :: r2).takeWhile Char.isDigit)
        let rest := (c2 :: r2).dropWhile Char.isDigit
        if c = '-' then
          if 2 ^ 63 < v then .error .mismatch else .ok (-(v : Int), rest)
        else
          if 2 ^ 63 - 1 < v then .error .mismatch else .ok ((v : Int), rest)

/-- The `%s` verb into a `string`: skip spaces, require input, then take
the longest run of non-space characters. -/
def scanStringTok (s : List Char) : Except ScanErr (List Char × List Char) :=
  match skipSpace s with
  | .error e => .error e
  | .ok [] => .error .unexpectedEOF
  | .ok (c :: r) =>
    .ok ((c :: r).takeWhile (fun x => !goIsSpace x),
         (c :: r).dropWhile (fun x => !goIsSpace x))

/-- Go: `fmt.Sscanf(string(text), "\x7bx-is%s,%d\x7d%s", &c.Kind, &c.Iter, &hash)`.
Input remaining after the last verb is not examined. -/
def scanPattern (s : List Char) : Except ScanErr (List Char × Int × List Char) := do
  let s1 ← scanLit '{' s
  let s2 ← scanLit 'x' s1
  let s3 ← scanLit '-' s2
  let s4 ← scanLit 'i' s3
  let s5 ← scanLit 's' s4
  let (k, s6) ← scanKind s5
  let s7 ← scanLit ',' s6
  let (n, s8) ← scanIntTok s7
  let s9 ← scanLit '}' s8
  let (tok, _) ← scanStringTok s9
  return (k, n, tok)

/-- Index of a character in the standard base64 alphabet. -/
def b64Index (c : Char) : Option Nat :=
  if 'A' ≤ c ∧ c ≤ 'Z' then some (c.toNat - 65)
  else if 'a' ≤ c ∧ c ≤ 'z' then some (c.toNat - 71)
  else if '0' ≤ c ∧ c ≤ '9' then some (c.toNat + 4)
  else if c = '+' then some 62
  else if c = '/' then some 63
  else none

/-- Go: `base64.StdEncoding.DecodeString` — quanta of four characters,
`=` padding only at the end of the final quantum, length must be a
multiple of four, invalid characters rejected. -/
def b64decode : List Char → Option (List Nat)
  | a :: b :: c :: e :: rest =>
    match b64Index a, b64Index b with
    | some ia, some ib =>
      if c = '=' then
        if e = '=' ∧ rest = [] then some [ia * 4 + ib / 16] else none
      else
        match b64Index c with
        | none => none
        | some ic =>
          if e = '=' then
            if rest = [] then some [ia * 4 + ib / 16, ib % 16 * 16 + ic / 4]
            else none
          else
            match b64Index e, b64decode rest with
            | some ie, some bs =>
              some ((ia * 4 + ib / 16) :: (ib % 16 * 16 + ic / 4) ::
                    (ic % 4 * 64 + ie) :: bs)
            | _, _ => none
    | _, _ => none
  | [] => some []
  | _ => none

/-- Character of a sextet in the standard base64 alphabet. -/
def b64Char (n : Nat) : Char :=
  if n < 26 then Char.ofNat (65 + n)
  else if n < 52 then Char.ofNat (71 + n)
  else if n < 62 then Char.ofNat (n - 4)
  else if n = 62 then '+' else '/'

/-- Go: `base64.StdEncoding.EncodeToString` — three bytes per quantum,
padded final quantum. -/
def b64encode : List Nat → List Char
  | [] => []
  | [b0] => [b64Char (b0 / 4), b64Char (b0 % 4 * 16), '=', '=']
  | [b0, b1] => [b64Char (b0 / 4), b64Char (b0 % 4 * 16 + b1 / 16),
                 b64Char (b1 % 16 * 4), '=']
  | b0 :: b1 :: b2 :: rest =>
    b64Char (b0 / 4) :: b64Char (b0 % 4 * 16 + b1 / 16) ::
    b64Char (b1 % 16 * 4 + b2 / 64) :: b64Char (b2 % 64) :: b64encode rest

/-- Go: `func (c *CodvN) UnmarshalText(text []byte) error` — run the
scanner (mapping `io.ErrUnexpectedEOF` to `ErrTruncatedInput`), reject
`Iter <= 0`, resolve the kind, decode the base64 payload, check it is at
least the digest size, and split it into `Hash` and `Salt`. -/
def unmarshalText (d : Digests) (text : List Char) : Except Err CodvN :=
  match scanPattern text with
  | .error .unexpectedEOF => .error .truncatedInput
  | .error .mismatch => .error .scanFailure
  | .ok (k, iter, hashTok) =>
    if iter ≤ 0 then .error .zeroIterations
    else
      match newHash d k with
      | none => .error .unknownHash
      | some f =>
        match b64decode hashTok with
        | none => .error .base64Failure
        | some parts =>
          if parts.length < f.size then .error .truncatedInput
          else .ok ⟨k, iter, parts.take f.size, parts.drop f.size⟩

/-- Go: `func Parse(text []byte) (CodvN, error)`. -/
def Parse (d : Digests) (text : List Char) : Except Err CodvN :=
  unmarshalText d text

/-- The character of one decimal digit. -/
def digitChar (d : Nat) : Char :=
  Char.ofNat (48 + d)

/-- Decimal digits of a natural number, most significant first, as
`fmt.Sprintf("%d", ...)` prints it. -/
def natDecimal (n : Nat) : List Char :=
  if h : n < 10 then [digitChar n]
  else natDecimal (n / 10) ++ [digitChar (n % 10)]
decreasing_by exact Nat.div_lt_self (by omega) (by omega)

/-- `%d` rendering of a Go `int`. -/
def intDecimal (i : Int) : List Char :=
  if i < 0 then '-' :: natDecimal (-i).toNat else natDecimal i.toNat

/-- Go: `func (c CodvN) String() string` (and `MarshalText`, which returns
the same bytes): `fmt.Sprintf("\x7bx-is%s,%d\x7d%s", c.Kind, c.Iter, hashed)`
with `hashed = base64(append(c.Hash, c.Salt...))`. A pure function of the
record fields. -/
def CodvN.toText (c : CodvN) : List Char :=
  '{' :: 'x' :: '-' :: 'i' :: 's' ::
    (c.kind ++ ',' :: (intDecimal c.iter ++ '}' :: b64encode (c.hash ++ c.salt)))

/-- The loop body of `encode`, iterated: each round resets the hash and
digests `pass ++ salt`, the result becoming the next `salt`. -/
def encodeLoop (H : List Nat → List Nat) (pass : List Nat) :
    Nat → List Nat → List Nat
  | 0, salt => salt
  | n + 1, salt => encodeLoop H pass n (H (pass ++ salt))

/-- Go: `func encode(h hash.Hash, pass, salt []byte, iter int)` — the
`for i := 0; i < iter; i++` loop runs `max iter 0` times. -/
def encode (H : List Nat → List Nat) (pass salt : List Nat) (iter : Int) :
    List Nat :=
  encodeLoop H pass iter.toNat salt

/-- Go: `func New(kind Kind, pass, salt []byte, iter int) (CodvN, error)`.
`encode` always returns a nil error, so only an unknown kind fails. -/
def New (d : Digests) (kind : List Char) (pass salt : List Nat) (iter : Int) :
    Except Err CodvN :=
  match newHash d kind with
  | none => .error .unknownHash
  | some f => .ok ⟨kind, iter, encode f.sum pass salt iter, salt⟩

/-- The loop of `crypto/subtle.ConstantTimeCompare` on two equal-length
slices: accumulate the OR of the XORs of all byte pairs, and count the
iterations executed. Returns `(accumulator, iterations)`. -/
def ctcLoop : List Nat → List Nat → Nat → Nat × Nat
  | a :: x, b :: y, v =>
    let r := ctcLoop x y (v ||| (a ^^^ b))
    (r.1, r.2 + 1)
  | _, _, v => (v, 0)

/-- Go: `crypto/subtle.ConstantTimeCompare` — `0` on length mismatch,
otherwise `ConstantTimeByteEq(v, 0)` of the accumulated XORs. -/
def constantTimeCompare (x y : List Nat) : Nat :=
  if x.length ≠ y.length then 0
  else if (ctcLoop x y 0).1 = 0 then 1 else 0

/-- Go: `func (c CodvN) Verify(clear []byte) error` — recompute via `New`
with the record salt and iteration count, then compare digests with
`subtle.ConstantTimeCompare`. -/
def CodvN.Verify (d : Digests) (c : CodvN) (clear : List Nat) :
    Except Err Unit :=
  match New d c.kind clear c.salt c.iter with
  | .error e => .error e
  | .ok n => if constantTimeCompare n.hash c.hash ≠ 1 then .error .dontMatch
             else .ok ()

/-- Concrete stand-in digest functions (constant output of the right
length) used to instantiate witnesses. -/
def constDigests : Digests :=
  ⟨fun _ => List.replicate 20 0, fun _ => List.replicate 32 0,
   fun _ => List.replicate 48 0, fun _ => List.replicate 64 0⟩

theorem constDigests_lenOk : constDigests.LenOk := by
  refine ⟨fun xs => ?_, fun xs => ?_, fun xs => ?_, fun xs => ?_⟩ <;>
    simp [constDigests]

/-- Sanity: the scanner splits the truncated test vector of the package
test suite into kind, iteration count and payload token. -/
theorem sanity_scan_test_vector : scanPattern ("\x7bx-issha,1024\x7dCg==".toList) =
    .ok (SHA1, 1024, "Cg==".toList) := rfl

/-- Sanity: the `truncated` case of the package test suite. -/
theorem sanity_truncated : unmarshalText constDigests
    ("\x7bx-issha,1024\x7dCg==".toList) = .error .truncatedInput := rfl

/-- Sanity: the `empty` case of the package test suite. -/
theorem sanity_empty : unmarshalText constDigests [] =
    .error .truncatedInput := rfl

/-- Sanity: the `zero` case of the package test suite. -/
theorem sanity_zero : unmarshalText constDigests
    ("\x7bx-issha,0\x7dCg==".toList) = .error .zeroIterations := rfl

/-- Sanity: the `kind` case of the package test suite. -/
theorem sanity_unknown_kind : unmarshalText constDigests
    ("\x7bx-ismd5,1024\x7dCg==".toList) = .error .unknownHash := rfl

/-! ### List scanning helpers -/

theorem takeWhile_append_cons (p : Char → Bool) (xs : List Char)
    (h : ∀ x ∈ xs, p x = true) (y : Char) (hy : p y = false) (ys : List Char) :
    (xs ++ y :: ys).takeWhile p = xs ∧ (xs ++ y :: ys).dropWhile p = y :: ys := by
  induction xs with
  | nil => simp [List.takeWhile, List.dropWhile, hy]
  | cons a as ih =>
    have ha : p a = true := h a (by simp)
    have := ih (fun x hx => h x (by simp [hx]))
    simp [List.takeWhile, List.dropWhile, ha, this.1, this.2]

theorem takeWhile_all (p : Char → Bool) (xs : List Char)
    (h : ∀ x ∈ xs, p x = true) :
    xs.takeWhile p = xs ∧ xs.dropWhile p = [] := by
  induction xs with
  | nil => simp
  | cons a as ih =>
    have ha : p a = true := h a (by simp)
    have := ih (fun x hx => h x (by simp [hx]))
    simp [List.takeWhile, List.dropWhile, ha, this.1, this.2]

/-! ### Decimal printing -/

theorem digitChar_toNat {d : Nat} (h : d < 10) : (digitChar d).toNat = 48 + d := by
  interval_cases d <;> decide

theorem digitChar_isDigit {d : Nat} (h : d < 10) : (digitChar d).isDigit = true := by
  interval_cases d <;> decide

theorem digitChar_props {d : Nat} (h : d < 10) :
    goIsSpace (digitChar d) = false ∧ goIsPunct (digitChar d) = false ∧
    digitChar d ≠ '-' ∧ digitChar d ≠ '+' := by
  interval_cases d <;> decide

theorem natDecimal_ne_nil (n : Nat) : natDecimal n ≠ [] := by
  rw [natDecimal]
  split <;> simp

theorem natDecimal_mem (n : Nat) : ∀ c ∈ natDecimal n, ∃ d, d < 10 ∧ c = digitChar d := by
  induction n using Nat.strong_induction_on with
  | _ n ih =>
    rw [natDecimal]
    split
    · next h => intro c hc; exact ⟨n, h, by simpa using hc⟩
    · next h =>
      intro c hc
      rcases List.mem_append.mp hc with h1 | h2
      · exact ih (n / 10) (Nat.div_lt_self (by omega) (by omega)) c h1
      · exact ⟨n % 10, Nat.mod_lt _ (by omega), by simpa using h2⟩

theorem charsToNat_append_digit (xs : List Char) (c : Char) :
    charsToNat (xs ++ [c]) = 10 * charsToNat xs + (c.toNat - 48) := by
  simp [charsToNat, List.foldl_append]

theorem charsToNat_natDecimal (n : Nat) : charsToNat (natDecimal n) = n := by
  induction n using Nat.strong_induction_on with
  | _ n ih =>
    rw [natDecimal]
    split
    · next h =>
      simp [charsToNat, digitChar_toNat h]
    · next h =>
      rw [charsToNat_append_digit, ih (n / 10) (Nat.div_lt_self (by omega) (by omega)),
        digitChar_toNat (Nat.mod_lt _ (by omega))]
      omega

/-! ### Base64 facts -/

theorem b64Char_facts : ∀ n, n < 64 →
    goIsSpace (b64Char n) = false ∧ b64Char n ≠ '=' ∧
    b64Index (b64Char n) = some n := by decide

theorem b64encode_ne_nil {bs : List Nat} (h : bs ≠ []) : b64encode bs ≠ [] := by
  match bs with
  | [] => exact absurd rfl h
  | [b0] => simp [b64encode]
  | [b0, b1] => simp [b64encode]
  | b0 :: b1 :: b2 :: rest => simp [b64encode]

theorem b64encode_nonspace {bs : List Nat} (hb : ∀ b ∈ bs, b < 256) :
    ∀ c ∈ b64encode bs, goIsSpace c = false := by
  induction bs using b64encode.induct with
  | case1 => simp [b64encode]
  | case2 b0 =>
    have h0 : b0 < 256 := hb b0 (by simp)
    intro c hc
    rcases (by simpa [b64encode] using hc : c = b64Char (b0 / 4) ∨
        c = b64Char (b0 % 4 * 16) ∨ c = '=') with rfl | rfl | rfl
    · exact (b64Char_facts _ (by omega)).1
    · exact (b64Char_facts _ (by omega)).1
    · decide
  | case3 b0 b1 =>
    have h0 : b0 < 256 := hb b0 (by simp)
    have h1 : b1 < 256 := hb b1 (by simp)
    intro c hc
    rcases (by simpa [b64encode] using hc : c = b64Char (b0 / 4) ∨
        c = b64Char (b0 % 4 * 16 + b1 / 16) ∨ c = b64Char (b1 % 16 * 4) ∨
        c = '=') with rfl | rfl | rfl | rfl
    · exact (b64Char_facts _ (by omega)).1
    · exact (b64Char_facts _ (by omega)).1
    · exact (b64Char_facts _ (by omega)).1
    · decide
  | case4 b0 b1 b2 rest ih =>
    have h0 : b0 < 256 := hb b0 (by simp)
    have h1 : b1 < 256 := hb b1 (by simp)
    have h2 : b2 < 256 := hb b2 (by simp)
    intro c hc
    rcases (by simpa [b64encode] using hc : c = b64Char (b0 / 4) ∨
        c = b64Char (b0 % 4 * 16 + b1 / 16) ∨ c = b64Char (b1 % 16 * 4 + b2 / 64) ∨
        c = b64Char (b2 % 64) ∨ c ∈ b64encode rest) with rfl | rfl | rfl | rfl | hm
    · exact (b64Char_facts _ (by omega)).1
    · exact (b64Char_facts _ (by omega)).1
    · exact (b64Char_facts _ (by omega)).1
    · exact (b64Char_facts _ (by omega)).1
    · exact ih (fun b hbm => hb b (by simp [hbm])) c hm

theorem b64_roundtrip {bs : List Nat} (hb : ∀ b ∈ bs, b < 256) :
    b64decode (b64encode bs) = some bs := by
  induction bs using b64encode.induct with
  | case1 => rfl
  | case2 b0 =>
    have h0 : b0 < 256 := hb b0 (by simp)
    have f1 := b64Char_facts (b0 / 4) (by omega)
    have f2 := b64Char_facts (b0 % 4 * 16) (by omega)
    simp [b64encode, b64decode, f1.2.2, f2.2.2, f2.2.1]
    omega
  | case3 b0 b1 =>
    have h0 : b0 < 256 := hb b0 (by simp)
    have h1 : b1 < 256 := hb b1 (by simp)
    have f1 := b64Char_facts (b0 / 4) (by omega)
    have f2 := b64Char_facts (b0 % 4 * 16 + b1 / 16) (by omega)
    have f3 := b64Char_facts (b1 % 16 * 4) (by omega)
    simp [b64encode, b64decode, f1.2.2, f2.2.2, f2.2.1, f3.2.2, f3.2.1]
    constructor <;> omega
  | case4 b0 b1 b2 rest ih =>
    have h0 : b0 < 256 := hb b0 (by simp)
    have h1 : b1 < 256 := hb b1 (by simp)
    have h2 : b2 < 256 := hb b2 (by simp)
    have f1 := b64Char_facts (b0 / 4) (by omega)
    have f2 := b64Char_facts (b0 % 4 * 16 + b1 / 16) (by omega)
    have f3 := b64Char_facts (b1 % 16 * 4 + b2 / 64) (by omega)
    have f4 := b64Char_facts (b2 % 64) (by omega)
    have ihr := ih (fun b hbm => hb b (by simp [hbm]))
    simp [b64encode, b64decode, f1.2.2, f2.2.2, f2.2.1, f3.2.2, f3.2.1,
      f4.2.2, f4.2.1, ihr]
    refine ⟨by omega, by omega, by omega⟩

/-! ### Constant-time comparison -/

theorem ctcLoop_count (x : List Nat) :
    ∀ y v, (ctcLoop x y v).2 = min x.length y.length := by
  induction x with
  | nil => intro y v; cases y <;> simp [ctcLoop]
  | cons a as ih =>
    intro y v
    cases y with
    | nil => simp [ctcLoop]
    | cons b bs => simp [ctcLoop, ih]; omega

theorem lor_eq_zero (a b : Nat) : a ||| b = 0 ↔ a = 0 ∧ b = 0 := by
  constructor
  · intro h
    constructor <;> {
      apply Nat.eq_of_testBit_eq
      intro i
      have := congrArg (fun n => Nat.testBit n i) h
      simp only [Nat.testBit_lor] at this
      simp only [Nat.zero_testBit]
      cases h1 : a.testBit i <;> cases h2 : b.testBit i <;> simp_all
    }
  · rintro ⟨rfl, rfl⟩; rfl

theorem ctcLoop_acc (x : List Nat) :
    ∀ y v, x.length = y.length →
      ((ctcLoop x y v).1 = 0 ↔ v = 0 ∧ x = y) := by
  induction x with
  | nil =>
    intro y v h
    cases y with
    | nil => simp [ctcLoop]
    | cons b bs => simp at h
  | cons a as ih =>
    intro y v h
    cases y with
    | nil => simp at h
    | cons b bs =>
      have := ih bs (v ||| (a ^^^ b)) (by simpa using h)
      simp only [ctcLoop, this, lor_eq_zero, Nat.xor_eq_zero]
      constructor
      · rintro ⟨⟨hv, hab⟩, hxy⟩; exact ⟨hv, by simp [hab, hxy]⟩
      · rintro ⟨hv, hl⟩
        have h1 : a = b ∧ as = bs := by simpa using hl
        exact ⟨⟨hv, h1.1⟩, h1.2⟩

theorem constantTimeCompare_eq_one (x y : List Nat) :
    constantTimeCompare x y = 1 ↔ x = y := by
  unfold constantTimeCompare
  by_cases h : x.length = y.length
  · rw [if_neg (by simpa using h)]
    have := ctcLoop_acc x y 0 h
    constructor
    · intro h1
      by_cases hz : (ctcLoop x y 0).1 = 0
      · exact (this.mp hz).2
      · simp [hz] at h1
    · intro h1
      rw [if_pos (this.mpr ⟨rfl, h1⟩)]
  · rw [if_pos (by simpa using h)]
    constructor
    · intro h1; exact absurd h1 (by omega)
    · intro h1; exact absurd (congrArg List.length h1) h

/-! ### The iterated hash -/

theorem encodeLoop_succ (H : List Nat → List Nat) (pass : List Nat) :
    ∀ n salt, encodeLoop H pass (n + 1) salt = H (pass ++ encodeLoop H pass n salt) := by
  intro n
  induction n with
  | zero => intro salt; rfl
  | succ m ih =>
    intro salt
    show encodeLoop H pass (m + 1) (H (pass ++ salt)) = _
    rw [ih (H (pass ++ salt))]
    rfl

theorem newHash_cases {d : Digests} {k : List Char} {f : HashFn}
    (h : newHash d k = some f) :
    (k = SHA1 ∧ f = ⟨20, d.sha1⟩) ∨ (k = SHA256 ∧ f = ⟨32, d.sha256⟩) ∨
    (k = SHA384 ∧ f = ⟨48, d.sha384⟩) ∨ (k = SHA512 ∧ f = ⟨64, d.sha512⟩) := by
  unfold newHash at h
  split at h
  · exact Or.inl ⟨by assumption, by simpa using h.symm⟩
  · split at h
    · exact Or.inr (Or.inl ⟨by assumption, by simpa using h.symm⟩)
    · split at h
      · exact Or.inr (Or.inr (Or.inl ⟨by assumption, by simpa using h.symm⟩))
      · split at h
        · exact Or.inr (Or.inr (Or.inr ⟨by assumption, by simpa using h.symm⟩))
        · simp at h

theorem newHash_sum_length {d : Digests} (hd : d.LenOk) {k : List Char} {f : HashFn}
    (h : newHash d k = some f) : ∀ xs, (f.sum xs).length = f.size := by
  obtain ⟨h1, h2, h3, h4⟩ := hd
  rcases newHash_cases h with ⟨_, rfl⟩ | ⟨_, rfl⟩ | ⟨_, rfl⟩ | ⟨_, rfl⟩ <;>
    assumption

theorem encode_length {d : Digests} (hd : d.LenOk) {k : List Char} {f : HashFn}
    (h : newHash d k = some f) (pass salt : List Nat) (iter : Int)
    (hi : 1 ≤ iter) : (encode f.sum pass salt iter).length = f.size := by
  have hn : iter.toNat = (iter.toNat - 1) + 1 := by omega
  unfold encode
  rw [hn, encodeLoop_succ]
  exact newHash_sum_length hd h _

/-! ### Evaluating the scanner on well-formed record text -/

theorem skipSpace_nospace {c : Char} (h : goIsSpace c = false) (r : List Char) :
    skipSpace (c :: r) = .ok (c :: r) := by
  have hn : c ≠ '\n' := by rintro rfl; simp [goIsSpace] at h
  simp [skipSpace, hn, h]

theorem kindChar_nonspace {c : Char} (h : kindChar c = true) :
    goIsSpace c = false := by
  simp only [kindChar, Bool.and_eq_true, Bool.not_eq_true'] at h
  exact h.1

theorem scanKind_eval (k : List Char) (hk1 : k ≠ [])
    (hk2 : ∀ c ∈ k, kindChar c = true) (y : Char) (hy : kindChar y = false)
    (ys : List Char) : scanKind (k ++ y :: ys) = .ok (k, y :: ys) := by
  obtain ⟨c0, cs, rfl⟩ : ∃ c0 cs, k = c0 :: cs := by
    cases k with
    | nil => exact absurd rfl hk1
    | cons a b => exact ⟨a, b, rfl⟩
  have hns : goIsSpace c0 = false := kindChar_nonspace (hk2 c0 (by simp))
  have htw := takeWhile_append_cons kindChar (c0 :: cs) hk2 y hy ys
  have hred : scanKind ((c0 :: cs) ++ y :: ys) =
      .ok (((c0 :: cs) ++ y :: ys).takeWhile kindChar,
           ((c0 :: cs) ++ y :: ys).dropWhile kindChar) := by
    rw [scanKind, List.cons_append, skipSpace_nospace hns]
  rw [hred, htw.1, htw.2]

theorem scanIntTok_eval (m : Nat) (rest : List Char) :
    scanIntTok (natDecimal m ++ '}' :: rest) =
      if 2 ^ 63 - 1 < m then .error .mismatch
      else .ok ((m : Int), '}' :: rest) := by
  obtain ⟨c0, cs, hnd⟩ : ∃ c0 cs, natDecimal m = c0 :: cs := by
    cases h : natDecimal m with
    | nil => exact absurd h (natDecimal_ne_nil m)
    | cons a b => exact ⟨a, b, rfl⟩
  obtain ⟨d0, hd0, hc0⟩ := natDecimal_mem m c0 (by rw [hnd]; simp)
  have hdig : ∀ c ∈ natDecimal m, c.isDigit = true := by
    intro c hc
    obtain ⟨d, hd, rfl⟩ := natDecimal_mem m c hc
    exact digitChar_isDigit hd
  have hc0dig : c0.isDigit = true := hdig c0 (by rw [hnd]; simp)
  have hprops := digitChar_props hd0
  have hns : goIsSpace c0 = false := by rw [hc0]; exact (digitChar_props hd0).1
  have hsign : ¬(c0 = '-' ∨ c0 = '+') := by
    rw [hc0]; push_neg; exact ⟨hprops.2.2.1, hprops.2.2.2⟩
  have htw := takeWhile_append_cons Char.isDigit (natDecimal m) hdig '}'
    (by decide) rest
  rw [hnd] at htw
  rw [scanIntTok, hnd, List.cons_append, skipSpace_nospace hns]
  simp only [if_neg hsign]
  rw [← List.cons_append, htw.1, htw.2, ← hnd, charsToNat_natDecimal]
  simp only [hc0dig, Bool.true_eq_false, if_false, if_neg hsign]
  rw [if_neg (show ¬ c0 = '-' from fun hcm => hsign (Or.inl hcm))]

theorem scanStringTok_eval (tok : List Char) (h1 : tok ≠ [])
    (h2 : ∀ c ∈ tok, goIsSpace c = false) (rest : List Char)
    (hr : rest = [] ∨ ∃ c t, rest = c :: t ∧ goIsSpace c = true) :
    scanStringTok (tok ++ rest) = .ok (tok, rest) := by
  obtain ⟨c0, cs, rfl⟩ : ∃ c0 cs, tok = c0 :: cs := by
    cases tok with
    | nil => exact absurd rfl h1
    | cons a b => exact ⟨a, b, rfl⟩
  have hp : ∀ c ∈ c0 :: cs, (fun x => !goIsSpace x) c = true := by
    intro c hc; simp [h2 c hc]
  have hns : goIsSpace c0 = false := h2 c0 (by simp)
  rcases hr with rfl | ⟨c, t, rfl, hcsp⟩
  · have htw := takeWhile_all (fun x => !goIsSpace x) (c0 :: cs) hp
    have hred : scanStringTok (c0 :: cs) =
        .ok ((c0 :: cs).takeWhile (fun x => !goIsSpace x),
             (c0 :: cs).dropWhile (fun x => !goIsSpace x)) := by
      rw [scanStringTok, skipSpace_nospace hns]
    rw [List.append_nil, hred, htw.1, htw.2]
  · have htw := takeWhile_append_cons (fun x => !goIsSpace x) (c0 :: cs) hp c
      (by simp [hcsp]) t
    have hred : scanStringTok ((c0 :: cs) ++ c :: t) =
        .ok (((c0 :: cs) ++ c :: t).takeWhile (fun x => !goIsSpace x),
             ((c0 :: cs) ++ c :: t).dropWhile (fun x => !goIsSpace x)) := by
      rw [scanStringTok, List.cons_append, skipSpace_nospace hns]
    rw [hred, htw.1, htw.2]

theorem ebind_ok {ε α β : Type} (a : α) (f : α → Except ε β) :
    (Except.ok a >>= f) = f a := rfl

theorem ebind_err {ε α β : Type} (e : ε) (f : α → Except ε β) :
    (Except.error e >>= f) = .error e := rfl

theorem emap_ok {ε α β : Type} (f : α → β) (a : α) :
    (f <$> (Except.ok a : Except ε α)) = .ok (f a) := rfl

/-- Scanning the canonical text of a record: the five literals, the kind
token, the comma, the decimal iteration count, the closing brace and the
payload token, optionally followed by whitespace-led trailing data. -/
theorem scanPattern_canonical
    (k : List Char) (hk1 : k ≠ []) (hk2 : ∀ c ∈ k, kindChar c = true)
    (m : Nat)
    (payload : List Nat) (hp : payload ≠ []) (hb : ∀ b ∈ payload, b < 256)
    (rest : List Char)
    (hr : rest = [] ∨ ∃ c t, rest = c :: t ∧ goIsSpace c = true) :
    scanPattern ('{' :: 'x' :: '-' :: 'i' :: 's' ::
      (k ++ ',' :: (natDecimal m ++ '}' :: (b64encode payload ++ rest)))) =
      if 2 ^ 63 - 1 < m then .error .mismatch
      else .ok (k, (m : Int), b64encode payload) := by
  have hkind := scanKind_eval k hk1 hk2 ',' (by decide)
    (natDecimal m ++ '}' :: (b64encode payload ++ rest))
  have hint := scanIntTok_eval m (b64encode payload ++ rest)
  have hstr := scanStringTok_eval (b64encode payload) (b64encode_ne_nil hp)
    (b64encode_nonspace hb) rest hr
  by_cases hm : 2 ^ 63 - 1 < m
  · rw [if_pos hm] at hint ⊢
    simp [scanPattern, scanLit, hkind, hint, ebind_ok, ebind_err, emap_ok]
  · rw [if_neg hm] at hint ⊢
    simp [scanPattern, scanLit, hkind, hint, hstr, ebind_ok, emap_ok]

/-- Scanning the canonical text of a record with an empty payload: the
`%s` verb finds no input and reports unexpected end of input. -/
theorem scanPattern_canonical_empty
    (k : List Char) (hk1 : k ≠ []) (hk2 : ∀ c ∈ k, kindChar c = true)
    (m : Nat) :
    scanPattern ('{' :: 'x' :: '-' :: 'i' :: 's' ::
      (k ++ ',' :: (natDecimal m ++ '}' :: []))) =
      if 2 ^ 63 - 1 < m then .error .mismatch
      else .error .unexpectedEOF := by
  have hkind := scanKind_eval k hk1 hk2 ',' (by decide)
    (natDecimal m ++ '}' :: [])
  have hint := scanIntTok_eval m ([] : List Char)
  by_cases hm : 2 ^ 63 - 1 < m
  · rw [if_pos hm] at hint ⊢
    simp [scanPattern, scanLit, hkind, hint, ebind_ok, ebind_err, emap_ok]
  · rw [if_neg hm] at hint ⊢
    simp [scanPattern, scanLit, scanStringTok, skipSpace, hkind, hint,
      ebind_ok, ebind_err, emap_ok]

/-! ### Claim C1 -/

/-- Claim C1: the iterated-hash derivation starts from `state := salt`
(zero iterations leave the salt untouched), each of the `iterations ≥ 1`
rounds replaces the state by the digest of `password ++ state` computed by
a freshly reset hash, and the final state has the digest size of the
algorithm (20, 32, 48 or 64 bytes). -/
theorem c1_iterated_hash_derivation (d : Digests) (hd : d.LenOk)
    (k : List Char) (f : HashFn) (hk : newHash d k = some f)
    (pass salt : List Nat) (iter : Int) (hi : 1 ≤ iter) :
    encode f.sum pass salt 0 = salt ∧
    encode f.sum pass salt iter =
      f.sum (pass ++ encode f.sum pass salt (iter - 1)) ∧
    (encode f.sum pass salt iter).length = f.size ∧
    (f.size = 20 ∨ f.size = 32 ∨ f.size = 48 ∨ f.size = 64) := by
  refine ⟨rfl, ?_, encode_length hd hk pass salt iter hi, ?_⟩
  · unfold encode
    have h1 : iter.toNat = (iter - 1).toNat + 1 := by omega
    rw [h1, encodeLoop_succ]
  · rcases newHash_cases hk with ⟨_, rfl⟩ | ⟨_, rfl⟩ | ⟨_, rfl⟩ | ⟨_, rfl⟩ <;>
      simp

/-- Witness for C1 at the SHA-1 kind, empty password and salt, one
iteration. -/
theorem c1_witness :
    encode constDigests.sha1 [] [] 0 = [] ∧
    (encode constDigests.sha1 [] [] 1).length = 20 :=
  ⟨(c1_iterated_hash_derivation constDigests constDigests_lenOk SHA1
      ⟨20, constDigests.sha1⟩ rfl [] [] 1 (by decide)).1,
   (c1_iterated_hash_derivation constDigests constDigests_lenOk SHA1
      ⟨20, constDigests.sha1⟩ rfl [] [] 1 (by decide)).2.2.1⟩

/-! ### Claim C2 -/

/-- Claim C2: for a record whose kind is one of the four supported
algorithms and whose iteration count is at least one, `Verify` succeeds
exactly when the iterated hash of the candidate over the record salt and
iteration count equals the stored digest, returns `ErrDontMatch`
otherwise, and a record built by `New` passes `Verify` with the same
password. -/
theorem c2_verify_correct (d : Digests) (c : CodvN) (f : HashFn)
    (hk : newHash d c.kind = some f) (hi : 1 ≤ c.iter) (clear : List Nat) :
    (CodvN.Verify d c clear = .ok () ↔
      encode f.sum clear c.salt c.iter = c.hash) ∧
    (encode f.sum clear c.salt c.iter ≠ c.hash →
      CodvN.Verify d c clear = .error .dontMatch) ∧
    (∀ pass salt it c2, New d c.kind pass salt it = .ok c2 →
      CodvN.Verify d c2 pass = .ok ()) := by
  have hV : ∀ cl, CodvN.Verify d c cl =
      if constantTimeCompare (encode f.sum cl c.salt c.iter) c.hash ≠ 1
      then .error .dontMatch else .ok () := by
    intro cl
    rw [CodvN.Verify, New, hk]
  refine ⟨?_, ?_, ?_⟩
  · rw [hV clear]
    by_cases he : encode f.sum clear c.salt c.iter = c.hash
    · have h1 := (constantTimeCompare_eq_one c.hash c.hash).mpr rfl
      simp [h1, he]
    · have h1 : constantTimeCompare (encode f.sum clear c.salt c.iter) c.hash ≠ 1 :=
        fun h => he ((constantTimeCompare_eq_one _ _).mp h)
      simp [h1, he]
  · intro he
    have h1 : constantTimeCompare (encode f.sum clear c.salt c.iter) c.hash ≠ 1 :=
      fun h => he ((constantTimeCompare_eq_one _ _).mp h)
    rw [hV clear, if_pos h1]
  · intro pass salt it c2 hN
    have hN2 : (Except.ok (⟨c.kind, it, encode f.sum pass salt it, salt⟩ : CodvN) :
        Except Err CodvN) = .ok c2 := by rw [← hN, New, hk]
    rcases Except.ok.inj hN2 with rfl
    have h1 := (constantTimeCompare_eq_one (encode f.sum pass salt it)
      (encode f.sum pass salt it)).mpr rfl
    rw [CodvN.Verify]
    show (match New d c.kind pass salt it with
      | .error e => Except.error e
      | .ok n => if constantTimeCompare n.hash (encode f.sum pass salt it) ≠ 1
                 then Except.error Err.dontMatch else Except.ok ()) = Except.ok ()
    rw [New, hk]
    simp [h1]

/-- Witness for C2 at the SHA-1 kind with a record of one iteration. -/
theorem c2_witness :
    CodvN.Verify constDigests ⟨SHA1, 1, List.replicate 20 0, []⟩ [] = .ok () ↔
      encode constDigests.sha1 [] [] 1 = List.replicate 20 0 :=
  (c2_verify_correct constDigests ⟨SHA1, 1, List.replicate 20 0, []⟩
    ⟨20, constDigests.sha1⟩ rfl (by decide) []).1

/-! ### Claim C4 -/

/-- Claim C4: whenever the scanned iteration field parses to a value that
is zero or negative, decoding fails with the zero-iterations error and
produces no record. -/
theorem c4_zero_iterations_rejected (d : Digests) (s k : List Char)
    (i : Int) (tok : List Char) (hs : scanPattern s = .ok (k, i, tok))
    (hi : i ≤ 0) : unmarshalText d s = .error .zeroIterations := by
  rw [unmarshalText, hs]
  simp [hi]

/-- Witness for C4 on the text with iteration field `0`. -/
theorem c4_witness :
    scanPattern ("\x7bx-issha,0\x7dCg==".toList) = .ok (SHA1, 0, "Cg==".toList) ∧
    unmarshalText constDigests ("\x7bx-issha,0\x7dCg==".toList) =
      .error .zeroIterations :=
  ⟨rfl, c4_zero_iterations_rejected constDigests ("\x7bx-issha,0\x7dCg==".toList)
    SHA1 0 ("Cg==".toList) rfl (by decide)⟩

/-! ### Claim C7 -/

/-- Claim C7: once the tag and iteration count are valid and the base64
payload decodes, decoding fails with the truncated-input error exactly
when the decoded payload is shorter than the digest size, and otherwise
returns the record with `digest = bytes[0:size]` and `salt = bytes[size:]`. -/
theorem c7_truncation_and_split (d : Digests) (s k : List Char) (i : Int)
    (tok : List Char) (f : HashFn) (parts : List Nat)
    (hs : scanPattern s = .ok (k, i, tok)) (hi : 0 < i)
    (hk : newHash d k = some f) (hb : b64decode tok = some parts) :
    (parts.length < f.size → unmarshalText d s = .error .truncatedInput) ∧
    (f.size ≤ parts.length →
      unmarshalText d s = .ok ⟨k, i, parts.take f.size, parts.drop f.size⟩) := by
  have hbase : unmarshalText d s =
      if parts.length < f.size then .error .truncatedInput
      else .ok ⟨k, i, parts.take f.size, parts.drop f.size⟩ := by
    rw [unmarshalText, hs]
    simp [show ¬ i ≤ 0 by omega, hk, hb]
  constructor
  · intro h; rw [hbase, if_pos h]
  · intro h; rw [hbase, if_neg (by omega)]

/-- Witness for C7 on the truncated payload from the package test suite. -/
theorem c7_witness :
    b64decode ("Cg==".toList) = some [10] ∧
    unmarshalText constDigests ("\x7bx-issha,1024\x7dCg==".toList) =
      .error .truncatedInput :=
  ⟨rfl, (c7_truncation_and_split constDigests ("\x7bx-issha,1024\x7dCg==".toList)
    SHA1 1024 ("Cg==".toList) ⟨20, constDigests.sha1⟩ [10] rfl (by decide)
    rfl rfl).1 (by decide)⟩

/-! ### Claim C10 -/

/-- Claim C10: the scanner's unexpected-end-of-input outcome is mapped to
the truncated-input error; in particular the empty input and inputs that
stop at any structural point of the pattern decode to
`ErrTruncatedInput`, not to the generic parse-failure class. -/
theorem c10_eof_maps_to_truncated (d : Digests) :
    (∀ s, scanPattern s = .error .unexpectedEOF →
      unmarshalText d s = .error .truncatedInput) ∧
    unmarshalText d [] = .error .truncatedInput ∧
    unmarshalText d ("\x7bx-is".toList) = .error .truncatedInput ∧
    unmarshalText d ("\x7bx-issha".toList) = .error .truncatedInput ∧
    unmarshalText d ("\x7bx-issha,".toList) = .error .truncatedInput ∧
    unmarshalText d ("\x7bx-issha,1024".toList) = .error .truncatedInput ∧
    unmarshalText d ("\x7bx-issha,1024\x7d".toList) = .error .truncatedInput := by
  refine ⟨fun s hs => ?_, rfl, rfl, rfl, rfl, rfl, rfl⟩
  rw [unmarshalText, hs]

/-- Witness for C10 on an input that ends inside the literal prefix. -/
theorem c10_witness :
    scanPattern ("\x7bx-i".toList) = .error .unexpectedEOF ∧
    unmarshalText constDigests ("\x7bx-i".toList) = .error .truncatedInput :=
  ⟨rfl, (c10_eof_maps_to_truncated constDigests).1 ("\x7bx-i".toList) rfl⟩

/-! ### Claim C5 (corrected) -/

/-- Counterexample to claim C5 as stated: `New` called with iteration
count `0` does not fail with the iteration-count error — it returns a
record (whose digest is the unmodified salt). -/
theorem c5_counterexample :
    New constDigests SHA1 [] [] 0 = .ok ⟨SHA1, 0, [], []⟩ ∧
    New constDigests SHA1 [] [] 0 ≠ .error .zeroIterations := by
  refine ⟨rfl, fun h => ?_⟩
  rw [show New constDigests SHA1 [] [] 0 = .ok ⟨SHA1, 0, [], []⟩ from rfl] at h
  cases h

/-- Amended claim C5: `New` performs no iteration-count validation; for
any supported kind and `iter ≤ 0` it succeeds and returns the record
whose digest is the unmodified salt (the derivation loop ran zero
times). Only an unknown kind makes `New` fail. -/
theorem c5_new_skips_validation (d : Digests) (k : List Char) (f : HashFn)
    (hk : newHash d k = some f) (pass salt : List Nat) (iter : Int)
    (hi : iter ≤ 0) : New d k pass salt iter = .ok ⟨k, iter, salt, salt⟩ := by
  have h0 : iter.toNat = 0 := by omega
  calc New d k pass salt iter
      = .ok ⟨k, iter, encode f.sum pass salt iter, salt⟩ := by rw [New, hk]
    _ = .ok ⟨k, iter, salt, salt⟩ := by rw [encode, h0]; rfl

/-- Witness for the amended C5 at the SHA-256 kind with `iter = -3`. -/
theorem c5_witness :
    New constDigests SHA256 [1] [2] (-3) = .ok ⟨SHA256, -3, [2], [2]⟩ :=
  c5_new_skips_validation constDigests SHA256 ⟨32, constDigests.sha256⟩ rfl
    [1] [2] (-3) (by decide)

/-! ### Claim C6 (corrected) -/

/-- Counterexample to claim C6 as stated: `New` succeeds at iteration
count `0` with a three-byte salt, yielding a record whose digest is that
salt — its length is not the 20-byte SHA-1 digest size. -/
theorem c6_counterexample :
    New constDigests SHA1 [] [1, 2, 3] 0 =
      .ok ⟨SHA1, 0, [1, 2, 3], [1, 2, 3]⟩ ∧
    Option.map HashFn.size (newHash constDigests SHA1) = some 20 ∧
    ([1, 2, 3] : List Nat).length ≠ 20 := ⟨rfl, rfl, by decide⟩

/-- Amended claim C6: every record produced by a successful decode has
`len(digest) = size`, and every record produced by `New` with `iter ≥ 1`
has `len(digest) = size` (given the digest functions return digest-sized
output); `New` with `iter ≤ 0` is excluded, as it copies the salt into
the digest field. -/
theorem c6_digest_length_invariant (d : Digests) (hd : d.LenOk) :
    (∀ s c f, unmarshalText d s = .ok c → newHash d c.kind = some f →
      c.hash.length = f.size) ∧
    (∀ k f pass salt iter c, newHash d k = some f → 1 ≤ iter →
      New d k pass salt iter = .ok c → c.hash.length = f.size) := by
  constructor
  · intro s c f hu hk
    unfold unmarshalText at hu
    split at hu
    · cases hu
    · cases hu
    · next k2 i2 tok2 heq =>
      split at hu
      · cases hu
      · split at hu
        · cases hu
        · next f2 hk2 =>
          split at hu
          · cases hu
          · next parts hb2 =>
            split at hu
            · cases hu
            · next hlen =>
              rcases Except.ok.inj hu with rfl
              rw [show (⟨k2, i2, parts.take f2.size, parts.drop f2.size⟩ :
                CodvN).kind = k2 from rfl] at hk
              rw [hk2] at hk
              rcases Option.some.inj hk with rfl
              simp [List.length_take]
              omega
  · intro k f pass salt iter c hk hi hN
    have hN2 : (Except.ok (⟨k, iter, encode f.sum pass salt iter, salt⟩ :
        CodvN) : Except Err CodvN) = .ok c := by rw [← hN, New, hk]
    rcases Except.ok.inj hN2 with rfl
    exact encode_length hd hk pass salt iter hi

/-! ### Claim C3 -/

/-- Unfolding of a successful decode once the scanner outcome, the kind,
and the base64 payload are fixed. -/
theorem unmarshalText_eval (d : Digests) (text k : List Char) (i : Int)
    (tok : List Char) (f : HashFn) (parts : List Nat)
    (hs : scanPattern text = .ok (k, i, tok)) (hpos : ¬ i ≤ 0)
    (hk : newHash d k = some f) (hb : b64decode tok = some parts) :
    unmarshalText d text =
      if parts.length < f.size then .error .truncatedInput
      else .ok ⟨k, i, parts.take f.size, parts.drop f.size⟩ := by
  rw [unmarshalText, hs]
  simp [hpos, hk, hb]

/-- A canonically-formatted record text: the literal frame, one of the
four canonical tags, the standard decimal rendering of the iteration
count, and the standard padded base64 encoding of a byte payload — with
no interior whitespace. -/
def CanonicalText (s : List Char) : Prop :=
  ∃ (k : List Char) (m : Nat) (payload : List Nat),
    (k = SHA1 ∨ k = SHA256 ∨ k = SHA384 ∨ k = SHA512) ∧
    (∀ b ∈ payload, b < 256) ∧
    s = '{' :: 'x' :: '-' :: 'i' :: 's' ::
      (k ++ ',' :: (natDecimal m ++ '}' :: b64encode payload))

theorem kind_token_facts {k : List Char}
    (hk4 : k = SHA1 ∨ k = SHA256 ∨ k = SHA384 ∨ k = SHA512) :
    k ≠ [] ∧ (∀ c ∈ k, kindChar c = true) := by
  rcases hk4 with rfl | rfl | rfl | rfl <;> exact ⟨by decide, by decide⟩

/-- Claim C3: decoding a canonically-formatted text and re-encoding the
resulting record reproduces the original text byte for byte (`toText`
being by construction a pure function of the record fields). -/
theorem c3_roundtrip (d : Digests) (s : List Char) (hs : CanonicalText s)
    (c : CodvN) (hp : unmarshalText d s = .ok c) : CodvN.toText c = s := by
  obtain ⟨k, m, payload, hk4, hb, rfl⟩ := hs
  obtain ⟨hk1, hk2⟩ := kind_token_facts hk4
  by_cases hpl : payload = []
  · exfalso
    subst hpl
    have hsp := scanPattern_canonical_empty k hk1 hk2 m
    rw [unmarshalText] at hp
    rw [show b64encode [] = ([] : List Char) from rfl] at hp
    by_cases hm : 2 ^ 63 - 1 < m
    · rw [if_pos hm] at hsp; rw [hsp] at hp; simp at hp
    · rw [if_neg hm] at hsp; rw [hsp] at hp; simp at hp
  · have hsp := scanPattern_canonical k hk1 hk2 m payload hpl hb []
      (Or.inl rfl)
    rw [List.append_nil] at hsp
    by_cases hm : 2 ^ 63 - 1 < m
    · exfalso
      rw [if_pos hm] at hsp
      rw [unmarshalText, hsp] at hp
      simp at hp
    · rw [if_neg hm] at hsp
      by_cases hm0 : m = 0
      · exfalso
        subst hm0
        rw [unmarshalText, hsp] at hp
        simp at hp
      · have hmpos : ¬ ((m : Int) ≤ 0) := by omega
        obtain ⟨f, hkf⟩ : ∃ f, newHash d k = some f := by
          rcases hk4 with rfl | rfl | rfl | rfl <;> exact ⟨_, rfl⟩
        have heval := unmarshalText_eval d _ k (m : Int) (b64encode payload)
          f payload hsp hmpos hkf (b64_roundtrip hb)
        by_cases hlen : payload.length < f.size
        · exfalso
          rw [heval, if_pos hlen] at hp
          cases hp
        · rw [heval, if_neg hlen] at hp
          rcases Except.ok.inj hp with rfl
          have hID : intDecimal ((m : Nat) : Int) = natDecimal m := by
            rw [intDecimal, if_neg (by omega : ¬ ((m : Nat) : Int) < 0),
              Int.toNat_natCast]
          simp [CodvN.toText, hID, List.take_append_drop]

/-- Witness for C3 on a canonical SHA-1 record with one iteration and a
20-byte zero payload. -/
theorem c3_witness :
    CanonicalText ("\x7bx-issha,1\x7dAAAAAAAAAAAAAAAAAAAAAAAAAAA=".toList) ∧
    unmarshalText constDigests
      ("\x7bx-issha,1\x7dAAAAAAAAAAAAAAAAAAAAAAAAAAA=".toList) =
      .ok ⟨SHA1, 1, List.replicate 20 0, []⟩ ∧
    CodvN.toText ⟨SHA1, 1, List.replicate 20 0, []⟩ =
      "\x7bx-issha,1\x7dAAAAAAAAAAAAAAAAAAAAAAAAAAA=".toList := by
  have hcan : CanonicalText ("\x7bx-issha,1\x7dAAAAAAAAAAAAAAAAAAAAAAAAAAA=".toList) := by
    refine ⟨SHA1, 1, List.replicate 20 0, Or.inl rfl, by decide, ?_⟩
    rw [show natDecimal 1 = ['1'] by rw [natDecimal]; rfl]
    decide
  exact ⟨hcan, rfl,
    c3_roundtrip constDigests ("\x7bx-issha,1\x7dAAAAAAAAAAAAAAAAAAAAAAAAAAA=".toList)
      hcan ⟨SHA1, 1, List.replicate 20 0, []⟩ rfl⟩

/-! ### Claim C8 (corrected) -/

/-- Counterexample to claim C8 as stated: a well-formed SHA-1 record
followed by the trailing data `" x"` decodes successfully to the record
of the prefix, instead of failing with a parse error. -/
theorem c8_counterexample :
    unmarshalText constDigests
      ("\x7bx-issha,2\x7dAAAAAAAAAAAAAAAAAAAAAAAAAAA= x".toList) =
      .ok ⟨SHA1, 2, List.replicate 20 0, []⟩ := rfl

/-- A record that round-trips: a supported kind, an iteration count in
`[1, 2^63-1]`, a digest of exactly the digest size, and byte-valued
digest and salt. -/
def CodvN.WF (d : Digests) (c : CodvN) : Prop :=
  ∃ f, newHash d c.kind = some f ∧ 1 ≤ c.iter ∧ c.iter ≤ 2 ^ 63 - 1 ∧
    c.hash.length = f.size ∧ (∀ b ∈ c.hash, b < 256) ∧ (∀ b ∈ c.salt, b < 256)

/-- Amended claim C8: decoding does not require the whole input to be
consumed — the base64 payload is read as a maximal non-whitespace token,
so a well-formed record followed by whitespace and arbitrary trailing
data decodes successfully to the record of the prefix, the trailing data
being ignored. -/
theorem c8_trailing_data_ignored (d : Digests) (c : CodvN)
    (hwf : CodvN.WF d c) (junk : List Char) :
    unmarshalText d (CodvN.toText c ++ ' ' :: junk) = .ok c := by
  obtain ⟨f, hkf, hi1, hi2, hlen, hbh, hbs⟩ := hwf
  have hk4 : c.kind = SHA1 ∨ c.kind = SHA256 ∨ c.kind = SHA384 ∨
      c.kind = SHA512 := by
    rcases newHash_cases hkf with ⟨h, _⟩ | ⟨h, _⟩ | ⟨h, _⟩ | ⟨h, _⟩ <;>
      simp [h]
  obtain ⟨hk1, hk2⟩ := kind_token_facts hk4
  have hsz : 20 ≤ f.size := by
    rcases newHash_cases hkf with ⟨_, rfl⟩ | ⟨_, rfl⟩ | ⟨_, rfl⟩ | ⟨_, rfl⟩ <;>
      simp
  have hhne : c.hash ≠ [] := by
    intro h
    rw [h] at hlen
    simp at hlen
    omega
  have hpne : c.hash ++ c.salt ≠ [] := by
    intro h
    exact hhne (List.append_eq_nil.mp h).1
  have hbp : ∀ b ∈ c.hash ++ c.salt, b < 256 := by
    intro b hb
    rcases List.mem_append.mp hb with h | h
    · exact hbh b h
    · exact hbs b h
  have hID : intDecimal c.iter = natDecimal c.iter.toNat := by
    rw [intDecimal, if_neg (by omega : ¬ c.iter < 0)]
  have hText : CodvN.toText c ++ ' ' :: junk =
      '{' :: 'x' :: '-' :: 'i' :: 's' ::
        (c.kind ++ ',' :: (natDecimal c.iter.toNat ++ '}' ::
          (b64encode (c.hash ++ c.salt) ++ ' ' :: junk))) := by
    simp [CodvN.toText, hID, List.cons_append, List.append_assoc]
  have hsp := scanPattern_canonical c.kind hk1 hk2 c.iter.toNat
    (c.hash ++ c.salt) hpne hbp (' ' :: junk) (Or.inr ⟨' ', junk, rfl, rfl⟩)
  rw [if_neg (by omega : ¬ 2 ^ 63 - 1 < c.iter.toNat)] at hsp
  have hcast : ((c.iter.toNat : Int)) = c.iter := by omega
  rw [hcast] at hsp
  have heval := unmarshalText_eval d _ c.kind c.iter
    (b64encode (c.hash ++ c.salt)) f (c.hash ++ c.salt) hsp
    (by omega) hkf (b64_roundtrip hbp)
  rw [hText, heval,
    if_neg (by simp [List.length_append]; omega :
      ¬ (c.hash ++ c.salt).length < f.size)]
  rw [← hlen, List.take_left, List.drop_left]

/-- Witness for the amended C8 on a SHA-1 record followed by `" j"`. -/
theorem c8_witness :
    unmarshalText constDigests
      (CodvN.toText ⟨SHA1, 3, List.replicate 20 0, []⟩ ++ ' ' :: ['j']) =
      .ok ⟨SHA1, 3, List.replicate 20 0, []⟩ :=
  c8_trailing_data_ignored constDigests ⟨SHA1, 3, List.replicate 20 0, []⟩
    ⟨⟨20, constDigests.sha1⟩, rfl, by decide, by decide, by decide,
      by decide, by decide⟩ ['j']

/-! ### Claim C9 -/

/-- Claim C9: the digest comparison used by `Verify` is the dedicated
constant-time routine of `crypto/subtle`, not a short-circuiting
equality: on equal-length inputs its loop always executes exactly one
iteration per byte — the same count for any contents, wherever or
whether the first mismatch occurs — and it decides equality. -/
theorem c9_constant_time_compare (x y x2 y2 : List Nat)
    (h1 : x.length = y.length) (h2 : x2.length = x.length)
    (h3 : y2.length = x.length) :
    (ctcLoop x y 0).2 = x.length ∧
    (ctcLoop x2 y2 0).2 = (ctcLoop x y 0).2 ∧
    (constantTimeCompare x y = 1 ↔ x = y) := by
  refine ⟨?_, ?_, constantTimeCompare_eq_one x y⟩
  · rw [ctcLoop_count]; omega
  · rw [ctcLoop_count, ctcLoop_count]; omega

/-- Witness for C9: a pair differing in the first byte takes as many loop
iterations as an equal pair. -/
theorem c9_witness :
    (ctcLoop [0, 1] [7, 1] 0).2 = ([0, 1] : List Nat).length ∧
    (ctcLoop [5, 5] [5, 5] 0).2 = (ctcLoop [0, 1] [7, 1] 0).2 ∧
    (constantTimeCompare [0, 1] [7, 1] = 1 ↔ ([0, 1] : List Nat) = [7, 1]) :=
  c9_constant_time_compare [0, 1] [7, 1] [5, 5] [5, 5] rfl rfl rfl

/-- Witness for the amended C6: the decode half on a full-length SHA-1
payload. -/
theorem c6_witness :
    unmarshalText constDigests
      ("\x7bx-issha,7\x7dAAAAAAAAAAAAAAAAAAAAAAAAAAAAAAAA".toList) =
      .ok ⟨SHA1, 7, List.replicate 20 0, List.replicate 4 0⟩ ∧
    (List.replicate 20 (0 : Nat)).length = 20 :=
  ⟨rfl, (c6_digest_length_invariant constDigests constDigests_lenOk).1
    ("\x7bx-issha,7\x7dAAAAAAAAAAAAAAAAAAAAAAAAAAAAAAAA".toList)
    ⟨SHA1, 7, List.replicate 20 0, List.replicate 4 0⟩
    ⟨20, constDigests.sha1⟩ rfl rfl⟩

end Codvn
